import Mathlib

/-!
Shallow embedding of the byteproc module-chain processing core
(src/lib.rs, module `processor`): the error taxonomy, the three
byte-transformation modules (Passthrough, Xor, Base64), the module
registry and its chain execution, the size guard of `main_internal`,
and the derived configuration fields.

Bytes are modelled as `Nat` values < 256; byte buffers as `List Nat`.
Rust `usize` is modelled as `Nat` with explicit `2 ^ 64` bounds where
overflow matters. Fallible Rust functions returning `Result` are
modelled with `Except ByteProcError`.
-/

namespace Byteproc

/-- The error enum `ByteProcError` of src/lib.rs (lines 25-33). -/
inductive ByteProcError where
  | Io (msg : String)
  | InvalidConfiguration (msg : String)
  | HexDecode (msg : String)
  | MaxSizeExceeded (max : Nat) (got : Nat)
  | Zmq (msg : String)
  | Module (msg : String)
deriving Repr, DecidableEq

/-- Value of one hex digit, case-insensitive, as accepted by the `hex`
crate (`Vec::from_hex`). -/
def hexDigit (c : Char) : Option Nat :=
  if '0' ≤ c ∧ c ≤ '9' then some (c.toNat - '0'.toNat)
  else if 'a' ≤ c ∧ c ≤ 'f' then some (c.toNat - 'a'.toNat + 10)
  else if 'A' ≤ c ∧ c ≤ 'F' then some (c.toNat - 'A'.toNat + 10)
  else none

/-- `Vec::from_hex`: strict hex decoding, two digits per byte, failing
on a non-hex character or odd length. `none` models the `FromHexError`. -/
def hexDecodeChars : List Char → Option (List Nat)
  | [] => some []
  | [_] => none
  | c1 :: c2 :: rest => do
      let h ← hexDigit c1
      let l ← hexDigit c2
      let t ← hexDecodeChars rest
      some ((h * 16 + l) :: t)

/-- `hex::encode`: lower-case hex encoding of a byte buffer. -/
def hexDigitChar (n : Nat) : Char :=
  if n < 10 then Char.ofNat ('0'.toNat + n)
  else Char.ofNat ('a'.toNat + (n - 10))

/-- `hex::encode` over a byte list, producing the character list of the
output string. -/
def hexEncodeChars : List Nat → List Char
  | [] => []
  | b :: rest => hexDigitChar (b / 16) :: hexDigitChar (b % 16) :: hexEncodeChars rest

-- -------------- Modules --------------

/-- `Passthrough::process` (src/lib.rs lines 65-67): returns a copy of
the input. -/
def Passthrough.process (input : List Nat) : Except ByteProcError (List Nat) :=
  .ok input

/-- The `XorModule` struct (src/lib.rs lines 71-74): owns the decoded
key bytes (the `XorKey` wrapper only adds the zeroize-on-drop behaviour,
which has no input-output content). -/
structure XorModule where
  key : List Nat
deriving Repr, DecidableEq

/-- `XorModule::new` (src/lib.rs lines 77-89): hex-decode the key
string, reject an empty key; the `pad_byte` argument is read into `_pad`
and never used. -/
def XorModule.new (hex_key : String) (pad_byte : Option Nat) :
    Except ByteProcError XorModule :=
  match hexDecodeChars hex_key.data with
  | none => .error (.HexDecode "invalid hex")
  | some raw =>
      if raw = [] then
        .error (.InvalidConfiguration "xor_key cannot be empty")
      else
        let _pad := pad_byte.getD 0
        .ok { key := raw }

/-- `XorModule::process` (src/lib.rs lines 93-101): for each `(i, b)` of
the enumerated input, emit `b ^ key[i % key.len()]`. The source indexing
panics only for an empty key, which `XorModule::new` rules out; `getD`
with default 0 is the total rendering of that in-bounds index. -/
def XorModule.process (m : XorModule) (input : List Nat) :
    Except ByteProcError (List Nat) :=
  .ok (input.enum.map fun p => p.2 ^^^ m.key.getD (p.1 % m.key.length) 0)

/-- The `Base64Module` struct (src/lib.rs lines 105-108). -/
structure Base64Module where
  encode : Bool
  padding : Bool
deriving Repr, DecidableEq

/-- `Base64Module::new` (src/lib.rs lines 110-112). -/
def Base64Module.new (encode : Bool) (padding : Bool) : Base64Module :=
  { encode := encode, padding := padding }

/-- The six bits of each base64 symbol for three input bytes, as grouped
by the base64 crate's standard engines: byte triples become four
sextets; a trailing single byte becomes two sextets and a trailing pair
three. -/
def b64SextEncode : List Nat → List Nat
  | [] => []
  | [b1] => [b1 / 4, b1 % 4 * 16]
  | [b1, b2] => [b1 / 4, b1 % 4 * 16 + b2 / 16, b2 % 16 * 4]
  | b1 :: b2 :: b3 :: rest =>
      b1 / 4 :: (b1 % 4 * 16 + b2 / 16) :: (b2 % 16 * 4 + b3 / 64) :: b3 % 64 ::
        b64SextEncode rest

/-- The standard base64 alphabet: sextet value to ASCII code
(`A`-`Z`, `a`-`z`, `0`-`9`, `+`, `/`). -/
def charOfSextet (s : Nat) : Nat :=
  if s < 26 then 65 + s
  else if s < 52 then 97 + (s - 26)
  else if s < 62 then 48 + (s - 52)
  else if s = 62 then 43
  else 47

/-- Inverse alphabet lookup used by decoding; `none` for a character
outside the standard alphabet (including `=`). -/
def sextetOfChar (c : Nat) : Option Nat :=
  if 65 ≤ c ∧ c ≤ 90 then some (c - 65)
  else if 97 ≤ c ∧ c ≤ 122 then some (c - 97 + 26)
  else if 48 ≤ c ∧ c ≤ 57 then some (c - 48 + 52)
  else if c = 43 then some 62
  else if c = 47 then some 63
  else none

/-- `general_purpose::STANDARD` / `STANDARD_NO_PAD` encoding
(`cfg.encode(input).into_bytes()`): alphabet-map the sextets, then pad
with `=` (ASCII 61) to a multiple of four characters iff padding is on. -/
def b64Encode (padding : Bool) (input : List Nat) : List Nat :=
  let core := (b64SextEncode input).map charOfSextet
  if padding then core ++ List.replicate ((4 - core.length % 4) % 4) 61 else core

/-- Reassemble bytes from sextets, as the strict standard engines do:
full groups of four sextets give three bytes; a canonical trailing group
of two or three sextets gives one or two bytes, rejected when the unused
low bits are non-zero (`decode_allow_trailing_bits = false`); a trailing
single sextet is an invalid length. -/
def b64SextDecode : List Nat → Option (List Nat)
  | [] => some []
  | [_] => none
  | [s1, s2] => if s2 % 16 = 0 then some [s1 * 4 + s2 / 16] else none
  | [s1, s2, s3] =>
      if s3 % 4 = 0 then some [s1 * 4 + s2 / 16, s2 % 16 * 16 + s3 / 4] else none
  | s1 :: s2 :: s3 :: s4 :: rest => do
      let t ← b64SextDecode rest
      some ((s1 * 4 + s2 / 16) :: (s2 % 16 * 16 + s3 / 4) :: (s3 % 4 * 64 + s4) :: t)

/-- Strip canonical trailing `=` padding (at most two characters),
returning the body and the count stripped. -/
def padSplit (input : List Nat) : List Nat × Nat :=
  match input.reverse with
  | c1 :: c2 :: rest =>
      if c1 = 61 then
        if c2 = 61 then (rest.reverse, 2) else ((c2 :: rest).reverse, 1)
      else (input, 0)
  | c1 :: rest => if c1 = 61 then (rest.reverse, 1) else (input, 0)
  | [] => (input, 0)

/-- Alphabet-decode every character of the body, failing on the first
character outside the standard alphabet. -/
def mapSextets : List Nat → Option (List Nat)
  | [] => some []
  | c :: rest => do
      let s ← sextetOfChar c
      let t ← mapSextets rest
      some (s :: t)

/-- `general_purpose::STANDARD` / `STANDARD_NO_PAD` strict decoding:
with padding required, canonical `=` padding is stripped and the total
length must be a multiple of four; with padding forbidden, any `=` is an
invalid character. Every byte must be in the standard alphabet. The
`none` result models `DecodeError`. -/
def b64Decode (padding : Bool) (input : List Nat) : Option (List Nat) :=
  if padding then
    let (body, padCount) := padSplit input
    if (body.length + padCount) % 4 = 0 then
      do b64SextDecode (← mapSextets body)
    else none
  else
    do b64SextDecode (← mapSextets input)

/-- `Base64Module::process` (src/lib.rs lines 116-132): encode or decode
with the padded or unpadded standard engine; a decode failure becomes a
`Module` error. -/
def Base64Module.process (m : Base64Module) (input : List Nat) :
    Except ByteProcError (List Nat) :=
  if m.encode then
    .ok (b64Encode m.padding input)
  else
    match b64Decode m.padding input with
    | some v => .ok v
    | none => .error (.Module "invalid base64")

-- -------------- Config --------------

/-- The processing-relevant fields of the `Config` struct (src/lib.rs
lines 139-237). Transport, logging and ZMQ tuning fields are consumed
only by the I/O collaborators stripped from this embedding and carry no
input-output content for the chain. -/
structure Config where
  max_stream_size_kb : Nat
  xor_enabled : Bool
  xor_key : Option String
  xor_pad : String
  base64_enabled : Bool
  base64_mode : String
  base64_padding : Bool
deriving Repr, DecidableEq

/-- `usize::MAX` on the 64-bit targets the program runs on. -/
def usizeMax : Nat := 2 ^ 64 - 1

/-- `usize::checked_mul`: `none` exactly when the product overflows the
machine word. -/
def checkedMulUsize (a b : Nat) : Option Nat :=
  if a * b ≤ usizeMax then some (a * b) else none

/-- `Config::max_stream_size` (src/lib.rs lines 289-293):
`max_stream_size_kb.checked_mul(1024)`, with overflow reported as
`InvalidConfiguration`. -/
def Config.max_stream_size (cfg : Config) : Except ByteProcError Nat :=
  match checkedMulUsize cfg.max_stream_size_kb 1024 with
  | some v => .ok v
  | none => .error (.InvalidConfiguration "max_stream_size_kb too large")

/-- `Config::base64_encode` (src/lib.rs lines 296-298). -/
def Config.base64_encode (cfg : Config) : Bool :=
  cfg.base64_mode = "encode"

/-- `u8::from_str_radix(s, 16)` restricted to what `xor_pad` carries: a
non-empty all-hex-digit string whose value fits in a byte. -/
def u8FromStrRadix16 (s : String) : Option Nat :=
  match s.data.mapM hexDigit with
  | none => none
  | some ds =>
      if ds = [] then none
      else
        let v := ds.foldl (fun acc d => acc * 16 + d) 0
        if v ≤ 255 then some v else none

/-- `Config::xor_pad_byte` (src/lib.rs lines 301-303). -/
def Config.xor_pad_byte (cfg : Config) : Option Nat :=
  u8FromStrRadix16 cfg.xor_pad

-- -------------- Module registry --------------

/-- The closed set of module values the registry can hold (the trait
objects behind `Box<dyn ByteProcessor>`). -/
inductive Module where
  | passthrough
  | xorMod (m : XorModule)
  | base64 (m : Base64Module)
deriving Repr, DecidableEq

/-- Dynamic dispatch of `ByteProcessor::process`. -/
def Module.process : Module → List Nat → Except ByteProcError (List Nat)
  | .passthrough, input => Passthrough.process input
  | .xorMod m, input => m.process input
  | .base64 m, input => m.process input

/-- `ByteProcessor::name` of each module value. -/
def Module.name : Module → String
  | .passthrough => "passthrough"
  | .xorMod _ => "xor"
  | .base64 _ => "base64"

/-- The `ModuleRegistry` struct (src/lib.rs lines 470-472). The source
stores the modules in a `HashMap<&str, Box<dyn ByteProcessor>>`; here
`modules` records the inserted `(name, module)` pairs in insertion
order, and the map's unspecified iteration order is supplied separately
to `process_all` (see `processAllInOrder`). -/
structure ModuleRegistry where
  modules : List (String × Module)
deriving Repr, DecidableEq

/-- `ModuleRegistry::new` (src/lib.rs lines 475-496): Passthrough always
inserted, then Xor when enabled (propagating `XorModule::new` failures),
then Base64 when enabled. The `cfg.xor_key.as_ref().unwrap()` of the
source panics when XOR is enabled with no key; that dead-with-validated-
config branch is rendered as an `InvalidConfiguration` error. -/
def ModuleRegistry.new (cfg : Config) : Except ByteProcError ModuleRegistry := do
  let m0 : List (String × Module) := [("passthrough", .passthrough)]
  let m1 ← if cfg.xor_enabled then
      match cfg.xor_key with
      | some k => do
          let m ← XorModule.new k cfg.xor_pad_byte
          pure (m0 ++ [("xor", .xorMod m)])
      | none => Except.error (.InvalidConfiguration "xor_key missing (source panics)")
    else pure m0
  let m2 := if cfg.base64_enabled then
      m1 ++ [("base64", .base64 (Base64Module.new cfg.base64_encode cfg.base64_padding))]
    else m1
  pure { modules := m2 }

/-- The loop body of `ModuleRegistry::process_all` (src/lib.rs lines
499-509) over an explicit chain: `data = module.process(&data)?` for
each entry, short-circuiting on the first error. -/
def processChain : List (String × Module) → List Nat →
    Except ByteProcError (List Nat)
  | [], data => .ok data
  | (_, m) :: rest, data =>
      match m.process data with
      | .ok d => processChain rest d
      | .error e => .error e

/-- `order` is a possible iteration order of the registry's `HashMap`:
each stored entry is visited exactly once, in some unspecified
permutation of the insertion positions. -/
def ValidIterationOrder (r : ModuleRegistry) (order : List Nat) : Prop :=
  order.Perm (List.range r.modules.length)

/-- `ModuleRegistry::process_all` (src/lib.rs lines 499-509), with the
`HashMap` iteration order made explicit: fold the buffer through the
stored modules in the order the map happens to yield them. -/
def ModuleRegistry.processAllInOrder (r : ModuleRegistry) (order : List Nat)
    (data : List Nat) : Except ByteProcError (List Nat) :=
  processChain (order.filterMap fun i => r.modules[i]?) data

-- -------------- main_internal --------------

/-- The processing core of `main_internal` (src/lib.rs lines 621-636),
transport and logging stripped: hex-decode the raw input, guard its size
against `max_stream_size`, build the registry, run the chain (in the
`HashMap` iteration order `order`), guard the output size, and hex-encode
the result. -/
def main_internal (cfg : Config) (order : List Nat) (raw_hex : List Char) :
    Except ByteProcError (List Char) := do
  let bytes ← match hexDecodeChars raw_hex with
    | some b => Except.ok b
    | none => Except.error (.HexDecode "invalid hex")
  let limit ← cfg.max_stream_size
  if bytes.length > limit then
    Except.error (.MaxSizeExceeded limit bytes.length)
  else do
    let registry ← ModuleRegistry.new cfg
    let processed ← registry.processAllInOrder order bytes
    let limit2 ← cfg.max_stream_size
    if processed.length > limit2 then
      Except.error (.MaxSizeExceeded limit2 processed.length)
    else
      pure (hexEncodeChars processed)

-- -------------- Helper lemmas --------------

instance {ε α : Type} [DecidableEq ε] [DecidableEq α] : DecidableEq (Except ε α) := fun a b =>
  match a, b with
  | .ok x, .ok y => decidable_of_iff (x = y) (by simp)
  | .ok _, .error _ => isFalse (by simp)
  | .error _, .ok _ => isFalse (by simp)
  | .error x, .error y => decidable_of_iff (x = y) (by simp)

theorem xorProcess_ok (m : XorModule) (input : List Nat) :
    m.process input =
      .ok (input.enum.map fun p => p.2 ^^^ m.key.getD (p.1 % m.key.length) 0) :=
  rfl

theorem xorOut_length (m : XorModule) (input : List Nat) :
    (input.enum.map fun p => p.2 ^^^ m.key.getD (p.1 % m.key.length) 0).length
      = input.length := by
  simp [List.length_map, List.enum_length]

theorem xorOut_getElem (m : XorModule) (input : List Nat) (i : Nat)
    (h : i < input.length) :
    (input.enum.map fun p => p.2 ^^^ m.key.getD (p.1 % m.key.length) 0).getD i 0
      = input.getD i 0 ^^^ m.key.getD (i % m.key.length) 0 := by
  have hlen : i < (input.enum.map
      fun p => p.2 ^^^ m.key.getD (p.1 % m.key.length) 0).length := by
    rw [xorOut_length]; exact h
  rw [List.getD_eq_getElem _ _ hlen, List.getD_eq_getElem _ _ h]
  simp [List.getElem_map, List.getElem_enum]

theorem xorOut_eq_iff (m : XorModule) (input out : List Nat) :
    m.process input = .ok out ↔
      out = input.enum.map fun p => p.2 ^^^ m.key.getD (p.1 % m.key.length) 0 := by
  rw [xorProcess_ok]
  exact ⟨fun h => (Except.ok.injEq _ _).mp h.symm |>.symm ▸ rfl, fun h => by rw [h]⟩

-- -------------- Claim theorems --------------

/-- C4: for every successfully constructed `XorModule` (any non-empty
key, any pad argument) and every input buffer `x` of any length,
including lengths not a multiple of the key length, applying the
module's `process` twice returns `x` exactly. -/
theorem C4_xor_involution (s : String) (pad : Option Nat) (m : XorModule)
    (x y : List Nat) (_hnew : XorModule.new s pad = .ok m)
    (h1 : m.process x = .ok y) : m.process y = .ok x := by
  have hy := (xorOut_eq_iff m x y).mp h1
  rw [xorOut_eq_iff]
  apply List.ext_getElem
  · rw [xorOut_length, hy, xorOut_length]
  · intro i hx hmap
    have hix : i < x.length := hx
    have hiy : i < y.length := by rw [hy, xorOut_length]; exact hx
    have e1 : y.getD i 0 = x.getD i 0 ^^^ m.key.getD (i % m.key.length) 0 := by
      rw [hy]; exact xorOut_getElem m x i hix
    have e2 : (y.enum.map fun p =>
        p.2 ^^^ m.key.getD (p.1 % m.key.length) 0).getD i 0
        = y.getD i 0 ^^^ m.key.getD (i % m.key.length) 0 :=
      xorOut_getElem m y i hiy
    have e3 : (y.enum.map fun p =>
        p.2 ^^^ m.key.getD (p.1 % m.key.length) 0).getD i 0 = x.getD i 0 := by
      rw [e2, e1, Nat.xor_cancel_right]
    rw [← List.getD_eq_getElem _ _ hx, ← List.getD_eq_getElem _ _ hmap, e3]

/-- C4 witness: key `"ab"`, input `[1, 2, 3]`. -/
theorem C4_xor_involution_witness :
    ∃ m, XorModule.new "ab" (some 0) = .ok m ∧ m.process [170, 169, 168] = .ok [1, 2, 3] := by
  refine ⟨{ key := [171] }, by decide, ?_⟩
  exact C4_xor_involution "ab" (some 0) { key := [171] } [1, 2, 3] [170, 169, 168]
    (by decide) (by decide)

/-- C5: for every successfully constructed `XorModule` and every input,
`process` succeeds with a same-length buffer whose byte `i` is
`input[i] XOR key[i mod key.length]`, the result does not depend on the
pad-byte construction argument, and key `"abcd1234"` on
`[0x00, 0x11, 0x22, 0x33]` yields `[0xab, 0xdc, 0x30, 0x07]`. -/
theorem C5_xor_functional (s : String) (pad : Option Nat) (m : XorModule)
    (x : List Nat) (_hnew : XorModule.new s pad = .ok m) :
    (∃ y, m.process x = .ok y ∧ y.length = x.length ∧
      ∀ i, i < x.length →
        y.getD i 0 = x.getD i 0 ^^^ m.key.getD (i % m.key.length) 0) ∧
    (∀ pad2, XorModule.new s pad2 = XorModule.new s pad) ∧
    (XorModule.new "abcd1234" none).bind (fun m' => m'.process [0, 17, 34, 51])
      = .ok [171, 220, 48, 7] := by
  refine ⟨⟨_, xorProcess_ok m x, xorOut_length m x, fun i hi => xorOut_getElem m x i hi⟩,
    ?_, by decide⟩
  intro pad2
  unfold XorModule.new
  rfl

/-- C5 witness: key `"ff"`, input `[0, 15, 255]`. -/
theorem C5_xor_functional_witness :
    ∃ y, ({ key := [255] } : XorModule).process [0, 15, 255] = .ok y ∧
      y.length = 3 ∧
      ∀ i, i < 3 → y.getD i 0 =
        ([0, 15, 255] : List Nat).getD i 0 ^^^ ([255] : List Nat).getD (i % 1) 0 :=
  (C5_xor_functional "ff" (some 0) { key := [255] } [0, 15, 255] (by decide)).1

/-- C3: `process_all` folds the buffer through each module's `process`
in chain order, left to right; the empty chain returns the buffer; an
`ok` step passes its output to the rest of the chain; the first error is
returned unchanged, and no later module runs (the result ignores the
rest of the chain). `processAllInOrder` is exactly this fold over the
modules in the registry's iteration order, so either the whole chain
succeeds with a complete buffer or only an error is produced. -/
theorem C3_fold_short_circuit (r : ModuleRegistry) (order : List Nat)
    (n : String) (m : Module) (rest : List (String × Module)) (d : List Nat) :
    r.processAllInOrder order d
      = processChain (order.filterMap fun i => r.modules[i]?) d ∧
    processChain [] d = .ok d ∧
    (∀ d', m.process d = .ok d' →
      processChain ((n, m) :: rest) d = processChain rest d') ∧
    (∀ e, m.process d = .error e →
      processChain ((n, m) :: rest) d = .error e) := by
  refine ⟨rfl, rfl, ?_, ?_⟩
  · intro d' h
    simp [processChain, h]
  · intro e h
    simp [processChain, h]

/-- C3 witness: a failing Base64 decode at the head of a chain
short-circuits past a later passthrough, and an `ok` passthrough step
feeds the rest of the chain. -/
theorem C3_fold_short_circuit_witness :
    processChain [("base64", .base64 (Base64Module.new false true)),
        ("passthrough", .passthrough)] [33]
      = .error (.Module "invalid base64") ∧
    processChain [("passthrough", .passthrough)] [33] = .ok [33] := by
  constructor
  · exact (C3_fold_short_circuit { modules := [] } [] "base64"
      (.base64 (Base64Module.new false true))
      [("passthrough", .passthrough)] [33]).2.2.2 (.Module "invalid base64") (by decide)
  · exact (C3_fold_short_circuit { modules := [] } [] "passthrough" .passthrough [] [33]).2.1

/-- C7: `XorModule::new` fails with `HexDecode` on an invalid hex key,
with `InvalidConfiguration` on a key that decodes to zero bytes, and
succeeds otherwise; when XOR is enabled, `ModuleRegistry::new`
propagates any such failure unchanged, producing no registry. -/
theorem C7_xor_new_errors (s : String) (pad : Option Nat) :
    (hexDecodeChars s.data = none →
      XorModule.new s pad = .error (.HexDecode "invalid hex")) ∧
    (hexDecodeChars s.data = some [] →
      XorModule.new s pad = .error (.InvalidConfiguration "xor_key cannot be empty")) ∧
    (∀ k, hexDecodeChars s.data = some k → k ≠ [] →
      XorModule.new s pad = .ok { key := k }) ∧
    (∀ cfg e, cfg.xor_enabled = true → cfg.xor_key = some s →
      XorModule.new s cfg.xor_pad_byte = .error e →
      ModuleRegistry.new cfg = .error e) := by
  refine ⟨?_, ?_, ?_, ?_⟩
  · intro h; simp [XorModule.new, h]
  · intro h; simp [XorModule.new, h]
  · intro k h hne; simp [XorModule.new, h, hne]
  · intro cfg e hen hkey hfail
    simp [ModuleRegistry.new, hen, hkey, hfail, Except.bind]

/-- C7 witness: key `"zz"` is not hex; key `""` decodes to zero bytes;
key `"0f"` succeeds; a registry with XOR enabled and key `"zz"` fails
with the same `HexDecode` error. -/
theorem C7_xor_new_errors_witness :
    XorModule.new "zz" none = .error (.HexDecode "invalid hex") ∧
    XorModule.new "" none = .error (.InvalidConfiguration "xor_key cannot be empty") ∧
    XorModule.new "0f" none = .ok { key := [15] } ∧
    ModuleRegistry.new
      { max_stream_size_kb := 64, xor_enabled := true, xor_key := some "zz",
        xor_pad := "00", base64_enabled := false, base64_mode := "encode",
        base64_padding := true }
      = .error (.HexDecode "invalid hex") := by
  refine ⟨(C7_xor_new_errors "zz" none).1 (by decide),
    (C7_xor_new_errors "" none).2.1 (by decide),
    (C7_xor_new_errors "0f" none).2.2.1 [15] (by decide) (by decide),
    (C7_xor_new_errors "zz" none).2.2.2 _ _ rfl rfl ?_⟩
  exact (C7_xor_new_errors "zz" (u8FromStrRadix16 "00")).1 (by decide)

/-- C10: `Config::max_stream_size` returns exactly
`max_stream_size_kb * 1024` when the product fits in the 64-bit machine
word, and an `InvalidConfiguration` error — neither a panic nor a
wrapped value — when the multiplication would overflow. -/
theorem C10_max_stream_size (cfg : Config) :
    (cfg.max_stream_size_kb * 1024 ≤ usizeMax →
      cfg.max_stream_size = .ok (cfg.max_stream_size_kb * 1024)) ∧
    (usizeMax < cfg.max_stream_size_kb * 1024 →
      cfg.max_stream_size
        = .error (.InvalidConfiguration "max_stream_size_kb too large")) := by
  constructor
  · intro h
    simp [Config.max_stream_size, checkedMulUsize, h]
  · intro h
    simp [Config.max_stream_size, checkedMulUsize, Nat.not_le_of_lt h]

/-- C10 witness: the default 64 KB bound gives 65536 bytes; a KB count
of `2 ^ 60` overflows and is rejected. -/
theorem C10_max_stream_size_witness :
    Config.max_stream_size
      { max_stream_size_kb := 64, xor_enabled := false, xor_key := none,
        xor_pad := "00", base64_enabled := false, base64_mode := "encode",
        base64_padding := true } = .ok 65536 ∧
    Config.max_stream_size
      { max_stream_size_kb := 2 ^ 60, xor_enabled := false, xor_key := none,
        xor_pad := "00", base64_enabled := false, base64_mode := "encode",
        base64_padding := true }
      = .error (.InvalidConfiguration "max_stream_size_kb too large") :=
  ⟨(C10_max_stream_size _).1 (by decide),
   (C10_max_stream_size _).2 (by norm_num [usizeMax])⟩

theorem exceptBind_ok {ε α β : Type} (a : α) (f : α → Except ε β) :
    (Except.ok a >>= f : Except ε β) = f a := rfl

theorem exceptPure_eq {ε α : Type} (a : α) : (pure a : Except ε α) = Except.ok a := rfl

theorem xorNew_key_ne (s : String) (pad : Option Nat) (m : XorModule)
    (h : XorModule.new s pad = .ok m) : m.key ≠ [] := by
  obtain ⟨mk⟩ := m
  unfold XorModule.new at h
  cases hd : hexDecodeChars s.data with
  | none => simp [hd] at h
  | some raw =>
      simp only [hd] at h
      by_cases hr : raw = []
      · simp [hr] at h
      · simp only [if_neg hr, Except.ok.injEq, XorModule.mk.injEq] at h
        subst h
        simpa using hr

/-- C8: every constructed module's `process` is total: Passthrough
copies its input; a successfully constructed `XorModule` always
succeeds with a same-length buffer and its key index `i % key.length`
is always in bounds because the key is non-empty; a `Base64Module` in
either direction and padding mode returns `ok` or a `Module` error —
never a panic — on every input including the empty one. -/
theorem C8_process_total (s : String) (pad : Option Nat) (m : XorModule)
    (b : Base64Module) (x : List Nat) (hnew : XorModule.new s pad = .ok m) :
    Passthrough.process x = .ok x ∧
    (∃ y, m.process x = .ok y ∧ y.length = x.length) ∧
    (0 < m.key.length ∧ ∀ i, i % m.key.length < m.key.length) ∧
    ((∃ y, b.process x = .ok y) ∨ ∃ msg, b.process x = .error (.Module msg)) := by
  have hkey : 0 < m.key.length :=
    List.length_pos.mpr (xorNew_key_ne s pad m hnew)
  refine ⟨rfl, ⟨_, xorProcess_ok m x, xorOut_length m x⟩,
    ⟨hkey, fun i => Nat.mod_lt i hkey⟩, ?_⟩
  unfold Base64Module.process
  by_cases he : b.encode
  · exact Or.inl ⟨_, by rw [if_pos he]⟩
  · rw [if_neg he]
    cases hd : b64Decode b.padding x with
    | some v => exact Or.inl ⟨v, rfl⟩
    | none => exact Or.inr ⟨"invalid base64", rfl⟩

/-- C8 witness: key `"ab"` and the empty input buffer, with a
decode-direction padded Base64 module. -/
theorem C8_process_total_witness :
    Passthrough.process ([] : List Nat) = .ok [] ∧
    (∃ y, XorModule.process { key := [171] } [] = .ok y ∧ y.length = 0) ∧
    (0 < ([171] : List Nat).length ∧ ∀ i, i % ([171] : List Nat).length
      < ([171] : List Nat).length) ∧
    ((∃ y, (Base64Module.new false true).process [] = .ok y) ∨
      ∃ msg, (Base64Module.new false true).process [] = .error (.Module msg)) :=
  C8_process_total "ab" none { key := [171] } (Base64Module.new false true) []
    (by decide)

/-- C2: in `main_internal`, an input buffer longer than the limit fails
with `MaxSizeExceeded limit actual` whatever the configured chain is
(no module runs); an in-bound input whose chain output exceeds the limit
fails with `MaxSizeExceeded` after the chain and no output is emitted; a
buffer whose length equals the limit passes (both `≤` branches apply at
equality). -/
theorem C2_size_guard (cfg : Config) (order : List Nat) (raw : List Char)
    (bytes : List Nat) (limit : Nat)
    (hdec : hexDecodeChars raw = some bytes)
    (hlim : cfg.max_stream_size = .ok limit) :
    (limit < bytes.length →
      main_internal cfg order raw = .error (.MaxSizeExceeded limit bytes.length)) ∧
    (∀ r out, bytes.length ≤ limit → ModuleRegistry.new cfg = .ok r →
      r.processAllInOrder order bytes = .ok out →
      (limit < out.length →
        main_internal cfg order raw = .error (.MaxSizeExceeded limit out.length)) ∧
      (out.length ≤ limit →
        main_internal cfg order raw = .ok (hexEncodeChars out))) := by
  constructor
  · intro hgt
    simp [main_internal, hdec, hlim, exceptBind_ok, hgt]
  · intro r out hle hreg hproc
    constructor
    · intro hgt
      simp [main_internal, hdec, hlim, exceptBind_ok, Nat.not_lt_of_le hle,
        hreg, hproc, hgt]
    · intro hout
      simp [main_internal, hdec, hlim, exceptBind_ok, exceptPure_eq,
        Nat.not_lt_of_le hle, hreg, hproc, Nat.not_lt_of_le hout]

/-- C2 witness: with a 0 KB limit the one-byte input `"ff"` is rejected
before any module is built; with the default 64 KB limit it passes both
checks and is emitted re-hex-encoded. -/
theorem C2_size_guard_witness :
    main_internal
      { max_stream_size_kb := 0, xor_enabled := false, xor_key := none,
        xor_pad := "00", base64_enabled := false, base64_mode := "encode",
        base64_padding := true } [0] ['f', 'f']
      = .error (.MaxSizeExceeded 0 1) ∧
    main_internal
      { max_stream_size_kb := 64, xor_enabled := false, xor_key := none,
        xor_pad := "00", base64_enabled := false, base64_mode := "encode",
        base64_padding := true } [0] ['f', 'f']
      = .ok ['f', 'f'] := by
  constructor
  · exact (C2_size_guard _ [0] ['f', 'f'] [255] 0 (by decide) (by decide)).1
      (by decide)
  · exact ((C2_size_guard _ [0] ['f', 'f'] [255] 65536 (by decide) (by decide)).2
      { modules := [("passthrough", .passthrough)] } [255] (by decide)
      (by decide) (by decide)).2 (by decide)

-- -------------- Base64 round-trip lemmas --------------

theorem sextetOfChar_charOfSextet :
    ∀ s : Nat, s < 64 → sextetOfChar (charOfSextet s) = some s := by
  decide

theorem charOfSextet_ne_61 (s : Nat) : charOfSextet s ≠ 61 := by
  unfold charOfSextet
  repeat' split
  all_goals omega

theorem b64SextEncode_lt : (x : List Nat) → (∀ b ∈ x, b < 256) →
    ∀ s ∈ b64SextEncode x, s < 64
  | [], _ => by simp [b64SextEncode]
  | [b1], hx => by
      have h1 := hx b1 (by simp)
      simp only [b64SextEncode, List.mem_cons, List.not_mem_nil, or_false]
      rintro s (rfl | rfl) <;> omega
  | [b1, b2], hx => by
      have h1 := hx b1 (by simp)
      have h2 := hx b2 (by simp)
      simp only [b64SextEncode, List.mem_cons, List.not_mem_nil, or_false]
      rintro s (rfl | rfl | rfl) <;> omega
  | b1 :: b2 :: b3 :: rest, hx => by
      have h1 := hx b1 (by simp)
      have h2 := hx b2 (by simp)
      have h3 := hx b3 (by simp)
      have ih := b64SextEncode_lt rest (fun b hb => hx b (by simp [hb]))
      simp only [b64SextEncode, List.mem_cons]
      rintro s (rfl | rfl | rfl | rfl | hs)
      · omega
      · omega
      · omega
      · omega
      · exact ih s hs

theorem mapSextets_roundtrip : (l : List Nat) → (∀ s ∈ l, s < 64) →
    mapSextets (l.map charOfSextet) = some l
  | [], _ => rfl
  | s :: rest, h => by
      have hs := h s (by simp)
      have ih := mapSextets_roundtrip rest (fun a ha => h a (by simp [ha]))
      simp [mapSextets, sextetOfChar_charOfSextet s hs, ih]

theorem b64SextDecode_encode : (x : List Nat) → (∀ b ∈ x, b < 256) →
    b64SextDecode (b64SextEncode x) = some x
  | [], _ => rfl
  | [b1], hx => by
      have h1 := hx b1 (by simp)
      simp only [b64SextEncode, b64SextDecode]
      rw [if_pos (by omega)]
      congr 1
      have : b1 / 4 * 4 + b1 % 4 * 16 / 16 = b1 := by omega
      rw [this]
  | [b1, b2], hx => by
      have h1 := hx b1 (by simp)
      have h2 := hx b2 (by simp)
      simp only [b64SextEncode, b64SextDecode]
      rw [if_pos (by omega)]
      congr 1
      have e1 : b1 / 4 * 4 + (b1 % 4 * 16 + b2 / 16) / 16 = b1 := by omega
      have e2 : (b1 % 4 * 16 + b2 / 16) % 16 * 16 + b2 % 16 * 4 / 4 = b2 := by omega
      rw [e1, e2]
  | b1 :: b2 :: b3 :: rest, hx => by
      have h1 := hx b1 (by simp)
      have h2 := hx b2 (by simp)
      have h3 := hx b3 (by simp)
      have ih := b64SextDecode_encode rest (fun b hb => hx b (by simp [hb]))
      simp only [b64SextEncode, b64SextDecode, ih, Option.bind_eq_bind,
        Option.some_bind]
      congr 1
      have e1 : b1 / 4 * 4 + (b1 % 4 * 16 + b2 / 16) / 16 = b1 := by omega
      have e2 : (b1 % 4 * 16 + b2 / 16) % 16 * 16 + (b2 % 16 * 4 + b3 / 64) / 4 = b2 := by
        omega
      have e3 : (b2 % 16 * 4 + b3 / 64) % 4 * 64 + b3 % 64 = b3 := by omega
      rw [e1, e2, e3]

theorem b64SextEncode_length_mod : (x : List Nat) →
    (b64SextEncode x).length % 4 ≠ 1
  | [] => by simp [b64SextEncode]
  | [_] => by simp [b64SextEncode]
  | [_, _] => by simp [b64SextEncode]
  | _ :: _ :: _ :: rest => by
      have ih := b64SextEncode_length_mod rest
      simp only [b64SextEncode, List.length_cons]
      omega

theorem padSplit_append_replicate (core : List Nat) (k : Nat) (hk : k ≤ 2)
    (hcore : ∀ c ∈ core, c ≠ 61) :
    padSplit (core ++ List.replicate k 61) = (core, k) := by
  interval_cases k
  · rw [show List.replicate 0 61 = ([] : List Nat) from rfl, List.append_nil]
    unfold padSplit
    cases hrev : core.reverse with
    | nil =>
        have : core = [] := by simpa using congrArg List.reverse hrev
        simp [this]
    | cons h t =>
        have hne : h ≠ 61 := by
          refine hcore h ?_
          have : h ∈ core.reverse := by rw [hrev]; simp
          simpa using this
        cases t with
        | nil => simp [hne]
        | cons h2 t2 => simp [hne]
  · have hrw : (core ++ List.replicate 1 61).reverse = 61 :: core.reverse := by simp
    unfold padSplit
    rw [hrw]
    cases hrev : core.reverse with
    | nil =>
        have : core = [] := by simpa using congrArg List.reverse hrev
        simp [this]
    | cons h t =>
        have hne : h ≠ 61 := by
          refine hcore h ?_
          have : h ∈ core.reverse := by rw [hrev]; simp
          simpa using this
        have : (h :: t).reverse = core := by rw [← hrev]; simp
        simp [hne, this]
  · have hrw : (core ++ List.replicate 2 61).reverse = 61 :: 61 :: core.reverse := by
      simp [List.replicate]
    unfold padSplit
    rw [hrw]
    simp

theorem b64_roundtrip (pad : Bool) (x : List Nat) (hx : ∀ b ∈ x, b < 256) :
    b64Decode pad (b64Encode pad x) = some x := by
  have hlt := b64SextEncode_lt x hx
  have hmapS : mapSextets ((b64SextEncode x).map charOfSextet)
      = some (b64SextEncode x) := mapSextets_roundtrip _ hlt
  have hdec := b64SextDecode_encode x hx
  cases pad with
  | false =>
      have hE : b64Encode false x = (b64SextEncode x).map charOfSextet := rfl
      rw [hE]
      unfold b64Decode
      rw [if_neg (by decide)]
      simp [hmapS, hdec]
  | true =>
      have hlen := b64SextEncode_length_mod x
      have hne61 : ∀ c ∈ (b64SextEncode x).map charOfSextet, c ≠ 61 := by
        intro c hc
        obtain ⟨s, _, rfl⟩ := List.mem_map.mp hc
        exact charOfSextet_ne_61 s
      set core := (b64SextEncode x).map charOfSextet with hcoredef
      have hclen : core.length = (b64SextEncode x).length := List.length_map _ _
      have hk2 : (4 - core.length % 4) % 4 ≤ 2 := by
        rw [hclen]; omega
      have hsplit := padSplit_append_replicate core ((4 - core.length % 4) % 4) hk2 hne61
      have hE : b64Encode true x = core ++ List.replicate ((4 - core.length % 4) % 4) 61 := rfl
      rw [hE]
      unfold b64Decode
      rw [if_pos rfl, hsplit]
      have hmod : (core.length + (4 - core.length % 4) % 4) % 4 = 0 := by omega
      dsimp only
      rw [if_pos hmod]
      simp [hmapS, hdec]

/-- C6: for every byte buffer `x` and fixed padding mode, a decode-
direction `Base64Module` applied to the output of an encode-direction
`Base64Module` with the same padding mode returns `x`; the bytes of
`"hello world"` encode with padding to the bytes of
`"aGVsbG8gd29ybGQ="`, and the bytes of `"foo"` encode without padding
to the bytes of `"Zm9v"`. -/
theorem C6_base64_roundtrip (pad : Bool) (x e : List Nat)
    (hx : ∀ b ∈ x, b < 256)
    (henc : (Base64Module.new true pad).process x = .ok e) :
    (Base64Module.new false pad).process e = .ok x ∧
    (Base64Module.new true true).process
        [104, 101, 108, 108, 111, 32, 119, 111, 114, 108, 100]
      = .ok [97, 71, 86, 115, 98, 71, 56, 103, 100, 50, 57, 121, 98, 71, 81, 61] ∧
    (Base64Module.new true false).process [102, 111, 111]
      = .ok [90, 109, 57, 118] := by
  have he : e = b64Encode pad x := by
    have hp : (Base64Module.new true pad).process x = .ok (b64Encode pad x) := rfl
    rw [hp] at henc
    exact ((Except.ok.injEq _ _).mp henc).symm
  subst he
  refine ⟨?_, by decide, by decide⟩
  have hd : (Base64Module.new false pad).process (b64Encode pad x)
      = match b64Decode pad (b64Encode pad x) with
        | some v => Except.ok v
        | none => .error (.Module "invalid base64") := rfl
  rw [hd, b64_roundtrip pad x hx]

/-- C6 witness: padded round trip of `[1, 2, 3, 4]` through
`"AQIDBA=="`. -/
theorem C6_base64_roundtrip_witness :
    (Base64Module.new false true).process [65, 81, 73, 68, 66, 65, 61, 61]
      = .ok [1, 2, 3, 4] :=
  (C6_base64_roundtrip true [1, 2, 3, 4] [65, 81, 73, 68, 66, 65, 61, 61]
    (by decide) (by decide)).1

/-- Configuration enabling the XOR module with key `"ff"` and the
Base64 module in unpadded encode mode, with everything else at its
defaults. -/
def cfgC1 : Config :=
  { max_stream_size_kb := 64, xor_enabled := true, xor_key := some "ff",
    xor_pad := "00", base64_enabled := true, base64_mode := "encode",
    base64_padding := false }

/-- C1: the registry stores its modules in a `HashMap` keyed by module
name and `process_all` iterates that map, so the execution order is
whatever permutation the map's per-process random hash state yields —
it is not fixed to insertion order (Passthrough, Xor, Base64) and not
stable across process restarts. This theorem exhibits the bug at a
concrete configuration: both `[0, 1, 2]` (insertion order) and
`[0, 2, 1]` (Base64 before Xor) are possible iteration orders of the
same constructed registry, and on input `[0xff]` they produce
different outputs, so the chain result genuinely depends on the
unspecified hash order, contradicting the fixed-order invariant the
spec and the code's own doc comment ("process through all enabled
modules in insertion order") require. -/
theorem C1_chain_order_not_fixed :
    ∃ r, ModuleRegistry.new cfgC1 = .ok r ∧
      ValidIterationOrder r [0, 1, 2] ∧ ValidIterationOrder r [0, 2, 1] ∧
      r.processAllInOrder [0, 1, 2] [255] = .ok [65, 65] ∧
      r.processAllInOrder [0, 2, 1] [255] = .ok [208, 136] ∧
      r.processAllInOrder [0, 1, 2] [255] ≠ r.processAllInOrder [0, 2, 1] [255] := by
  refine ⟨{ modules := [("passthrough", .passthrough),
      ("xor", .xorMod { key := [255] }),
      ("base64", .base64 { encode := true, padding := false })] },
    by decide, ?_, ?_, by decide, by decide, by decide⟩
  · show List.Perm _ _
    decide
  · show List.Perm _ _
    decide

end Byteproc
